import Mathlib

/-!
# Verification of the event-processing core (Pipeline / ErrorHandler / HookManager / ActionHandler)

Shallow embedding of the engine found in the repository sources:
* `ErrorHandler` (src/unnamed/part_007, lines 8-186),
* `Pipeline` (src/unnamed/part_007, lines 243-422),
* `HookManager` (src/unnamed/part_004),
* `ActionHandler` (src/unnamed/part_005).

Modelling conventions:
* JS objects whose keys are consulted dynamically are association lists
  `List (String × Val)`; the JS spread `{...a, ...b}` is `a ++ b` together with a
  last-entry-wins lookup `assocGet`, so lookups agree with JS semantics.
* A stage is its declared name together with a function from the invocation
  number inside its retry slot (1-based) to an outcome: a returned value
  (`Option Obj`, `none` being `undefined`) or a thrown error.  This captures a
  stage closed over the message and any external state that makes successive
  attempts differ.
* Thrown JS errors are `JsError` (constructor name plus optional `code` field);
  fallible computations are `Except JsError`.
* Wall-clock concerns (the `timestamp` field of action records, the retry
  backoff delay, logging) are not modelled: no claim depends on them.
* `Pipeline.process` additionally returns the trace of observable events of the
  run: every hook emission (with the stage name carried in its payload, when
  any) and every stage invocation, in order.  The retry loop
  `while (!stageComplete)` is encoded by structural recursion on
  `rem = maxAttempts - attempt`: the source guard `attempt >= maxAttempts`
  is exactly `rem = 0` at the point where the guard runs.
-/

set_option maxRecDepth 4000

namespace TAF

/-- Atomic JS values appearing in the objects the engine consults.  Nested
objects are not needed by any consulted key and are abstracted away. -/
inductive Val where
  | str (s : String)
  | bool (b : Bool)
  | num (n : Int)
  | null
deriving DecidableEq

/-- JS truthiness for `Val`. -/
def truthy : Val → Bool
  | .str s => s ≠ ""
  | .bool b => b
  | .num n => n ≠ 0
  | .null => false

/-- A JS object, as an association list; later entries override earlier ones. -/
abbrev Obj := List (String × Val)

/-- Key lookup in an association list, last entry winning — this matches JS
object semantics when `{...a, ...b}` is modelled as `a ++ b`. -/
def assocGet {α : Type} (k : String) (l : List (String × α)) : Option α :=
  ((l.filter (fun p => p.1 == k)).getLast?).map (fun p => p.2)

/-- JS truthiness of an optional field access. -/
def truthyO (v : Option Val) : Bool :=
  match v with
  | none => false
  | some v => truthy v

/-- JS `obj[k] = (obj[k] || 0) + 1`, in lookup semantics. -/
def bump (l : List (String × Nat)) (k : String) : List (String × Nat) :=
  l ++ [(k, (assocGet k l).getD 0 + 1)]

/-- A thrown JS error: its constructor name (the error kind dispatched on) and
its optional `code` field. -/
structure JsError where
  name : String
  code : Option String := none
deriving DecidableEq

/-- A recovery action returned by the error handler
(`{ action, reason, fallbackValue? }`). -/
structure Recovery where
  action : String
  reason : String
  fallbackValue : Option Val := none
deriving DecidableEq

/-- A registered per-stage recovery strategy
(`{ strategy, maxRetries?, backoffMs? }`). -/
structure RecoveryStrategy where
  strategy : String
  maxRetries : Option Nat := none
  backoffMs : Option Nat := none
deriving DecidableEq

/-- JS `x || d` on an optional numeric option: an absent, or present but zero,
value falls back to the default. -/
def jsOrNat (x : Option Nat) (d : Nat) : Nat :=
  match x with
  | none => d
  | some m => if m = 0 then d else m

/-- The `errorStats` record of `ErrorHandler`. -/
structure ErrorStats where
  total : Nat
  byType : List (String × Nat)
  byStage : List (String × Nat)
deriving DecidableEq

/-- An error-kind handler as registered in `errorHandlers`: receives the error,
the stage name, the attempt number from the context, and (since the built-in
handlers are bound methods reading `this`) the current strategy registry.  It
may itself throw. -/
def ErrorHandlerFn : Type :=
  JsError → String → Nat → List (String × RecoveryStrategy) → Except JsError Recovery

/-- The `ErrorHandler` component (src/unnamed/part_007, lines 8-186). -/
structure ErrorHandler where
  errorHandlers : List (String × ErrorHandlerFn)
  recoveryStrategies : List (String × RecoveryStrategy)
  errorStats : ErrorStats

/-- `ErrorHandler.handleStageError` (lines 78-116). -/
def ErrorHandler.handleStageError (strategies : List (String × RecoveryStrategy))
    (_error : JsError) (_stageName : String) (attempt : Nat) : Recovery :=
  match assocGet _stageName strategies with
  | none => ⟨"stop", "no_strategy", none⟩
  | some strat =>
    match strat.strategy with
    | "stop" => ⟨"stop", "stage_error", none⟩
    | "skip" => ⟨"skip", "stage_error", none⟩
    | "retry" =>
      let a := if attempt = 0 then 1 else attempt
      if a < jsOrNat strat.maxRetries 3 then ⟨"retry", "stage_error", none⟩
      else ⟨"stop", "max_retries", none⟩
    | "fallback" => ⟨"fallback", "stage_error", some .null⟩
    | _ => ⟨"stop", "unknown_strategy", none⟩

/-- `ErrorHandler.handleDatabaseError` (lines 122-137). -/
def ErrorHandler.handleDatabaseError (e : JsError) : Recovery :=
  if e.code == some "ECONNREFUSED" then ⟨"stop", "db_connection_failed", none⟩
  else if e.code == some "QUERY_CANCELLED" then ⟨"skip", "db_timeout", none⟩
  else ⟨"skip", "db_error", none⟩

/-- `ErrorHandler.handleValidationError` (lines 143-146). -/
def ErrorHandler.handleValidationError (_e : JsError) : Recovery :=
  ⟨"skip", "validation_failed", none⟩

/-- `ErrorHandler.handleUnknownError` (lines 152-158). -/
def ErrorHandler.handleUnknownError (_e : JsError) : Recovery :=
  ⟨"stop", "unknown_error", none⟩

/-- `handleStageError` bound as a registrable handler. -/
def stageErrorFn : ErrorHandlerFn :=
  fun e s n strategies => .ok (ErrorHandler.handleStageError strategies e s n)

/-- `handleDatabaseError` bound as a registrable handler. -/
def databaseErrorFn : ErrorHandlerFn :=
  fun e _ _ _ => .ok (ErrorHandler.handleDatabaseError e)

/-- `handleValidationError` bound as a registrable handler. -/
def validationErrorFn : ErrorHandlerFn :=
  fun e _ _ _ => .ok (ErrorHandler.handleValidationError e)

/-- `handleUnknownError` bound as a registrable handler (the fallback of the
dispatch in `handle`). -/
def unknownErrorFn : ErrorHandlerFn :=
  fun e _ _ _ => .ok (ErrorHandler.handleUnknownError e)

/-- The handlers registered by the `ErrorHandler` constructor (lines 20-22). -/
def defaultErrorHandlers : List (String × ErrorHandlerFn) :=
  [("StageError", stageErrorFn),
   ("DatabaseError", databaseErrorFn),
   ("ValidationError", validationErrorFn)]

/-- A freshly constructed `ErrorHandler`. -/
def mkErrorHandler : ErrorHandler :=
  ⟨defaultErrorHandlers, [], ⟨0, [], []⟩⟩

/-- `registerErrorHandler` (lines 59-62): JS key assignment, i.e. override. -/
def ErrorHandler.registerErrorHandler (eh : ErrorHandler) (errorType : String)
    (f : ErrorHandlerFn) : ErrorHandler :=
  { eh with errorHandlers := eh.errorHandlers ++ [(errorType, f)] }

/-- `registerRecoveryStrategy` (lines 70-72). -/
def ErrorHandler.registerRecoveryStrategy (eh : ErrorHandler) (stageName : String)
    (strat : RecoveryStrategy) : ErrorHandler :=
  { eh with recoveryStrategies := eh.recoveryStrategies ++ [(stageName, strat)] }

/-- `updateStats` (lines 164-170). -/
def ErrorHandler.updateStats (eh : ErrorHandler) (e : JsError) (stageName : String) :
    ErrorHandler :=
  { eh with errorStats :=
      ⟨eh.errorStats.total + 1,
       bump eh.errorStats.byType e.name,
       bump eh.errorStats.byStage stageName⟩ }

/-- `ErrorHandler.handle` (lines 32-52): stats are updated first; a registered
per-stage strategy takes priority over error-kind dispatch; the dispatched
handler may throw, and its error is re-thrown to the caller. -/
def ErrorHandler.handle (eh : ErrorHandler) (e : JsError) (stageName : String)
    (attempt : Nat) : Except JsError Recovery × ErrorHandler :=
  let eh := eh.updateStats e stageName
  match assocGet stageName eh.recoveryStrategies with
  | some _ => (.ok (ErrorHandler.handleStageError eh.recoveryStrategies e stageName attempt), eh)
  | none =>
    let f := (assocGet e.name eh.errorHandlers).getD unknownErrorFn
    (f e stageName attempt eh.recoveryStrategies, eh)

/-- `getStats` (lines 176-178). -/
def ErrorHandler.getStats (eh : ErrorHandler) : ErrorStats := eh.errorStats

/-- A hook listener: its identity (for the invocation record) and the result of
invoking it — it may throw. -/
structure HookListener where
  id : String
  run : Except JsError Unit

/-- The `HookManager` component (src/unnamed/part_004). -/
structure HookManager where
  hooks : List (String × List HookListener)

/-- `HookManager.on` (lines 17-23): get-or-create the listener list, push. -/
def HookManager.on (hm : HookManager) (hookName : String) (cb : HookListener) :
    HookManager :=
  if hm.hooks.any (fun p => p.1 == hookName) then
    ⟨hm.hooks.map (fun p => if p.1 == hookName then (p.1, p.2 ++ [cb]) else p)⟩
  else ⟨hm.hooks ++ [(hookName, [cb])]⟩

/-- `HookManager.emit` (lines 30-39): every registered listener for the name is
invoked in order; a throwing listener is caught (and logged), recorded here as
`some error`, and the loop continues.  The return type has no error channel:
nothing propagates to the caller of `emit`. -/
def HookManager.emit (hm : HookManager) (hookName : String) :
    List (String × Option JsError) :=
  ((assocGet hookName hm.hooks).getD []).map (fun cb =>
    match cb.run with
    | .ok _ => (cb.id, none)
    | .error e => (cb.id, some e))

/-- `HookManager.getStatus` (lines 44-50). -/
def HookManager.getStatus (hm : HookManager) : List (String × Nat) :=
  hm.hooks.map (fun p => (p.1, p.2.length))

/-- What one invocation of a stage does: return a value (possibly `undefined`,
i.e. `none`) or throw. -/
inductive Outcome where
  | ret (v : Option Obj)
  | err (e : JsError)

/-- A pipeline stage: its declared function name (possibly empty) and its
behaviour per invocation number within its slot (1-based). -/
structure Stage where
  name : String
  run : Nat → Outcome

/-- The `Pipeline` component (src/unnamed/part_007, lines 243-414). -/
structure Pipeline where
  stages : List Stage
  hooks : Option HookManager := none
  errorHandler : Option ErrorHandler := none

/-- `Pipeline.use` (lines 255-258). -/
def Pipeline.use (p : Pipeline) (st : Stage) : Pipeline :=
  { p with stages := p.stages ++ [st] }

/-- `Pipeline.setHooks` (lines 264-267). -/
def Pipeline.setHooks (p : Pipeline) (hm : HookManager) : Pipeline :=
  { p with hooks := some hm }

/-- `Pipeline.setErrorHandler` (lines 273-276). -/
def Pipeline.setErrorHandler (p : Pipeline) (eh : ErrorHandler) : Pipeline :=
  { p with errorHandler := some eh }

/-- `createPipeline` (lines 420-422). -/
def createPipeline (stages : List Stage) : Pipeline :=
  ⟨stages, none, none⟩

/-- Observable events of one run: a hook emission (with the stage name its
payload carries, if any) or a stage invocation. -/
inductive Ev where
  | hookEv (hookName : String) (stageName : Option String)
  | invoke (stageName : String)
deriving DecidableEq

/-- An accumulated action record (`{action, data, stage, timestamp}`; the
timestamp is not modelled). -/
structure ActionRecord where
  action : Val
  data : Option Val
  stage : String
deriving DecidableEq

/-- The run result built by `process` (line 285 and the mutations that follow). -/
structure RunResult where
  stop : Bool
  metadata : Obj
  actions : List ActionRecord
  error : Option JsError := none
  errorStage : Option String := none
deriving DecidableEq

/-- Mutable state threaded through a run: the result under construction, the
the `_actions` list of the message, and the error handler (whose stats mutate). -/
structure Acc where
  res : RunResult
  msgActions : List ActionRecord
  eh : Option ErrorHandler

/-- Outcome of (part of) a run: `thrown` is the JS exception propagating out of
the loop, if any; `trace` lists the observable events of this part. -/
structure Outc where
  thrown : Option JsError
  acc : Acc
  trace : List Ev

/-- The JS expression `stage.name` with fallback `anonymous` on the empty name (line 300). -/
def effName (st : Stage) : String :=
  if st.name == "" then "anonymous" else st.name

/-- Lines 315-324: if the returned value has a truthy `action` key, append an
action record (with `data` defaulted on falsiness, `stageResult.data || {}`)
to both the `_actions` list of the message and the actions of the result. -/
def collectAction (acc : Acc) (stageName : String) (v : Option Obj) : Acc :=
  match v with
  | none => acc
  | some o =>
    match assocGet "action" o with
    | none => acc
    | some a =>
      if truthy a then
        let d : Option Val :=
          match assocGet "data" o with
          | some dv => if truthy dv then some dv else none
          | none => none
        let r : ActionRecord := ⟨a, d, stageName⟩
        { acc with
          msgActions := acc.msgActions ++ [r],
          res := { acc.res with actions := acc.res.actions ++ [r] } }
      else acc

/-- Lines 331-338: if the returned value has a truthy `stop` key, set the stop
flag and spread the whole returned object into the metadata. -/
def applyStop (acc : Acc) (v : Option Obj) : Acc :=
  match v with
  | none => acc
  | some o =>
    if truthyO (assocGet "stop" o) then
      { acc with res :=
          { acc.res with stop := true, metadata := acc.res.metadata ++ o } }
    else acc

/-- Lines 361-364 and 369-374: stop the run recording the error and the stage. -/
def stopAcc (acc : Acc) (e : JsError) (stageName : String) : Acc :=
  { acc with res :=
      { acc.res with stop := true, error := some e, errorStage := some stageName } }

/-- Line 301: `this.errorHandler?.recoveryStrategies[stageName]?.maxRetries ?? 3`
(`??`, so a present zero is kept). -/
def maxAttemptsFor (eh : Option ErrorHandler) (stageName : String) : Nat :=
  match eh with
  | none => 3
  | some eh =>
    match assocGet stageName eh.recoveryStrategies with
    | none => 3
    | some strat => strat.maxRetries.getD 3

/-- The `while (!stageComplete)` loop of `process` (lines 305-385) for one stage
slot.  `n` is the invocation number about to run (1-based; the source variable
`attempt` equals `n` right after a throw), and `rem = maxAttempts - n`, so the
source guard `attempt >= maxAttempts` is exactly `rem = 0`; the recursive call
re-establishes the invariant (`n+1`, `rem-1`).  The first call is
`n = 1`, `rem = maxAttempts - 1`. -/
def stageLoop (hooksOn : Bool) (run : Nat → Outcome) (stageName : String) :
    Nat → Nat → Acc → Outc
  | n, rem, acc =>
    let pre := (if hooksOn then [Ev.hookEv "before:stage" (some stageName)] else [])
      ++ [Ev.invoke stageName]
    match run n with
    | .ret v =>
      let acc := collectAction acc stageName v
      let t := pre ++ (if hooksOn then [Ev.hookEv "after:stage" (some stageName)] else [])
      ⟨none, applyStop acc v, t⟩
    | .err e =>
      let t := pre ++ (if hooksOn then [Ev.hookEv "error:stage" (some stageName)] else [])
      match acc.eh with
      | none => ⟨none, acc, t⟩
      | some eh =>
        match eh.handle e stageName n with
        | (r, eh') =>
          let acc := { acc with eh := some eh' }
          match r with
          | .error handlerError => ⟨some handlerError, acc, t⟩
          | .ok rcv =>
            if rcv.action == "stop" then ⟨none, stopAcc acc e stageName, t⟩
            else if rcv.action == "skip" then ⟨none, acc, t⟩
            else if rcv.action == "retry" then
              match rem with
              | 0 => ⟨none, stopAcc acc e stageName, t⟩
              | rem' + 1 =>
                let o := stageLoop hooksOn run stageName (n + 1) rem' acc
                ⟨o.thrown, o.acc, t ++ o.trace⟩
            else ⟨none, acc, t⟩

/-- The `for (const stage of this.stages)` loop of `process` (lines 299-388):
run each slot; a propagating exception aborts; `if (result.stop) break`. -/
def runStages (hooksOn : Bool) : List Stage → Acc → Outc
  | [], acc => ⟨none, acc, []⟩
  | st :: rest, acc =>
    let stageName := effName st
    let maxA := maxAttemptsFor acc.eh stageName
    let o := stageLoop hooksOn st.run stageName 1 (maxA - 1) acc
    match o.thrown with
    | some _ => o
    | none =>
      if o.acc.res.stop then o
      else
        let o2 := runStages hooksOn rest o.acc
        ⟨o2.thrown, o2.acc, o.trace ++ o2.trace⟩

/-- `Pipeline.process` (lines 284-399).  Emits `before:pipeline`, runs the
stage loop, and emits `after:pipeline` — unless an exception propagates, in
which case it skips `after:pipeline` and carries the exception in `thrown`. -/
def Pipeline.process (p : Pipeline) : Outc :=
  let hooksOn := p.hooks.isSome
  let acc0 : Acc := ⟨⟨false, [], [], none, none⟩, [], p.errorHandler⟩
  let t0 := if hooksOn then [Ev.hookEv "before:pipeline" none] else []
  let o := runStages hooksOn p.stages acc0
  match o.thrown with
  | some e => ⟨some e, o.acc, t0 ++ o.trace⟩
  | none =>
    let t1 := if hooksOn then [Ev.hookEv "after:pipeline" none] else []
    ⟨none, o.acc, t0 ++ o.trace ++ t1⟩

/-- The value returned by `Pipeline.inspect`. -/
structure InspectOut where
  stageCount : Nat
  stages : List String
  hasHooks : Bool
  hookStats : Option (List (String × Nat))
  hasErrorHandler : Bool
  errorStats : Option ErrorStats
deriving DecidableEq

/-- `Pipeline.inspect` (lines 404-413). -/
def Pipeline.inspect (p : Pipeline) : InspectOut :=
  ⟨p.stages.length,
   p.stages.map effName,
   p.hooks.isSome,
   p.hooks.map HookManager.getStatus,
   p.errorHandler.isSome,
   p.errorHandler.map ErrorHandler.getStats⟩

/-- A registered action handler: receives the action data (the context is not
modelled); it may throw. -/
def ActionFn : Type := Val → Except JsError Unit

/-- The `stats` record of `ActionHandler`. -/
structure ActionStats where
  total : Nat
  byAction : List (String × Nat)
  failed : Nat
deriving DecidableEq

/-- The `ActionHandler` component (src/unnamed/part_005). -/
structure ActionHandler where
  handlers : List (String × ActionFn)
  stats : ActionStats

/-- A freshly constructed `ActionHandler`. -/
def mkActionHandler : ActionHandler := ⟨[], ⟨0, [], 0⟩⟩

/-- `ActionHandler.register` (lines 36-43); the not-a-function guard is
enforced by typing here. -/
def ActionHandler.register (ah : ActionHandler) (actionType : String) (f : ActionFn) :
    ActionHandler :=
  { ah with handlers := ah.handlers ++ [(actionType, f)] }

/-- JS falsiness of the `actionType` argument: `null`/`undefined` (here `none`)
or the empty string. -/
def falsyStr (s : Option String) : Bool :=
  match s with
  | none => true
  | some s => s == ""

/-- `ActionHandler.handle` (lines 52-72).  Returns the JS return value (or the
re-thrown handler error), the updated handler state, and the list of handler
invocations performed (to witness that nothing runs on the early returns). -/
def ActionHandler.handle (ah : ActionHandler) (actionType : Option String) (data : Val) :
    Except JsError Bool × ActionHandler × List String :=
  if falsyStr actionType then (.ok false, ah, [])
  else
    let aname := actionType.getD ""
    match assocGet aname ah.handlers with
    | none => (.ok false, ah, [])
    | some f =>
      match f data with
      | .ok _ =>
        (.ok true,
         { ah with stats :=
             ⟨ah.stats.total + 1, bump ah.stats.byAction aname, ah.stats.failed⟩ },
         [aname])
      | .error e =>
        (.error e,
         { ah with stats := { ah.stats with failed := ah.stats.failed + 1 } },
         [aname])

/-- Number of occurrences of an event in a trace. -/
def countEv (t : List Ev) (e : Ev) : Nat :=
  (t.filter (fun x => decide (x = e))).length


/-! ### General lemmas about the engine -/

theorem assocGet_append_right {α : Type} {k : String} {b : List (String × α)} {v : α}
    (h : assocGet k b = some v) (a : List (String × α)) :
    assocGet k (a ++ b) = some v := by
  unfold assocGet at *
  rw [List.filter_append]
  cases hb : (b.filter (fun p => p.1 == k)).getLast? with
  | none => rw [hb] at h; simp at h
  | some p =>
    rw [hb] at h
    simp only [Option.map_some'] at h
    have hm : p ∈ ((a.filter (fun p => p.1 == k)) ++ b.filter (fun p => p.1 == k)).getLast? :=
      List.mem_getLast?_append_of_mem_getLast? (by rw [hb]; exact rfl)
    rw [Option.mem_def] at hm
    rw [hm]
    simpa using h

theorem runStages_append (hooksOn : Bool) (xs ys : List Stage) (acc : Acc)
    (hstop : acc.res.stop = false) :
    runStages hooksOn (xs ++ ys) acc =
      (let o := runStages hooksOn xs acc
       match o.thrown with
       | some _ => o
       | none =>
         if o.acc.res.stop then o
         else
           let o2 := runStages hooksOn ys o.acc
           ⟨o2.thrown, o2.acc, o.trace ++ o2.trace⟩) := by
  induction xs generalizing acc with
  | nil => simp [runStages, hstop]
  | cons st rest ih =>
    simp only [List.cons_append, runStages]
    cases h : (stageLoop hooksOn st.run (effName st) 1
        (maxAttemptsFor acc.eh (effName st) - 1) acc).thrown with
    | some e => simp [h]
    | none =>
      simp only [h]
      by_cases hs : (stageLoop hooksOn st.run (effName st) 1
          (maxAttemptsFor acc.eh (effName st) - 1) acc).acc.res.stop
      · simp [hs, h]
      · have hs' : (stageLoop hooksOn st.run (effName st) 1
            (maxAttemptsFor acc.eh (effName st) - 1) acc).acc.res.stop = false := by
          simpa using hs
        simp only [hs', Bool.false_eq_true, if_false, List.append_eq]
        rw [ih _ hs']
        cases h2 : (runStages hooksOn rest
            ((stageLoop hooksOn st.run (effName st) 1
              (maxAttemptsFor acc.eh (effName st) - 1) acc).acc)).thrown with
        | some e => simp [h2]
        | none =>
          simp only [h2]
          by_cases hs2 : (runStages hooksOn rest
              ((stageLoop hooksOn st.run (effName st) 1
                (maxAttemptsFor acc.eh (effName st) - 1) acc).acc)).acc.res.stop
          · simp [hs2, h2]
          · simp [hs2, List.append_assoc]



theorem assocGet_mem {α : Type} {k : String} {l : List (String × α)} {v : α}
    (h : assocGet k l = some v) : (k, v) ∈ l := by
  unfold assocGet at h
  cases hg : (l.filter (fun p => p.1 == k)).getLast? with
  | none => rw [hg] at h; simp at h
  | some p =>
    rw [hg] at h
    simp only [Option.map_some', Option.some.injEq] at h
    have hp : p ∈ l.filter (fun p => p.1 == k) := List.mem_of_mem_getLast? (by rw [hg]; rfl)
    rw [List.mem_filter] at hp
    have hk : p.1 = k := by simpa using hp.2
    have hpv : p = (k, v) := by
      cases p with
      | mk a b => simp only at hk h; rw [hk, h]
    rw [← hpv]
    exact hp.1

/-- The trace of one attempt of a stage slot. -/
def attemptBlock (hooksOn : Bool) (s tag : String) : List Ev :=
  (if hooksOn then [Ev.hookEv "before:stage" (some s)] else [])
    ++ Ev.invoke s :: (if hooksOn then [Ev.hookEv tag (some s)] else [])

/-- Concatenation of attempt blocks. -/
def attemptBlocks (hooksOn : Bool) (s : String) : List String → List Ev
  | [] => []
  | t :: ts => attemptBlock hooksOn s t ++ attemptBlocks hooksOn s ts

theorem stageLoop_trace (hooksOn : Bool) (run : Nat → Outcome) (s : String) :
    ∀ (rem n : Nat) (acc : Acc), ∃ tags : List String,
      (∀ t ∈ tags, t = "after:stage" ∨ t = "error:stage") ∧
      (stageLoop hooksOn run s n rem acc).trace = attemptBlocks hooksOn s tags ∧
      1 ≤ tags.length ∧ tags.length ≤ rem + 1 := by
  intro rem
  induction rem with
  | zero =>
    intro n acc
    rw [stageLoop]
    cases hr : run n with
    | ret v =>
      exact ⟨["after:stage"], by simp, by simp [attemptBlocks, attemptBlock], by simp, by simp⟩
    | err e =>
      cases he : acc.eh with
      | none =>
        exact ⟨["error:stage"], by simp, by simp [attemptBlocks, attemptBlock], by simp, by simp⟩
      | some eh =>
        refine ⟨["error:stage"], by simp, ?_, by simp, by simp⟩
        cases hr1 : (eh.handle e s n).1 with
        | error he' => simp [hr1, attemptBlocks, attemptBlock]
        | ok rcv =>
          by_cases h1 : rcv.action = "stop"
          · simp [hr1, h1, attemptBlocks, attemptBlock]
          · by_cases h2 : rcv.action = "skip"
            · simp [hr1, h1, h2, attemptBlocks, attemptBlock]
            · by_cases h3 : rcv.action = "retry"
              · simp [hr1, h1, h2, h3, attemptBlocks, attemptBlock]
              · simp [hr1, h1, h2, h3, attemptBlocks, attemptBlock]
  | succ rem' ih =>
    intro n acc
    rw [stageLoop]
    cases hr : run n with
    | ret v =>
      exact ⟨["after:stage"], by simp, by simp [attemptBlocks, attemptBlock], by simp, by simp⟩
    | err e =>
      cases he : acc.eh with
      | none =>
        exact ⟨["error:stage"], by simp, by simp [attemptBlocks, attemptBlock], by simp, by simp⟩
      | some eh =>
        cases hr1 : (eh.handle e s n).1 with
        | error he' =>
          exact ⟨["error:stage"], by simp, by simp [hr1, attemptBlocks, attemptBlock], by simp, by simp⟩
        | ok rcv =>
          by_cases h1 : rcv.action = "stop"
          · exact ⟨["error:stage"], by simp, by simp [hr1, h1, attemptBlocks, attemptBlock],
              by simp, by simp⟩
          · by_cases h2 : rcv.action = "skip"
            · exact ⟨["error:stage"], by simp, by simp [hr1, h1, h2, attemptBlocks, attemptBlock],
                by simp, by simp⟩
            · by_cases h3 : rcv.action = "retry"
              · obtain ⟨tags, htags, htr, hlen1, hlen2⟩ :=
                  ih (n + 1) { acc with eh := some (eh.handle e s n).2 }
                refine ⟨"error:stage" :: tags, ?_, ?_, by simp, by simpa using hlen2⟩
                · intro t ht
                  rcases List.mem_cons.mp ht with hh | hh
                  · exact Or.inr hh
                  · exact htags t hh
                · simp only [hr1, h1, h2, h3]
                  simp only [attemptBlocks, attemptBlock]
                  simp [htr, List.append_assoc]
              · exact ⟨["error:stage"], by simp, by simp [hr1, h1, h2, h3, attemptBlocks, attemptBlock],
                  by simp, by simp⟩



theorem countEv_nil (e : Ev) : countEv [] e = 0 := rfl

theorem countEv_cons (x : Ev) (t : List Ev) (e : Ev) :
    countEv (x :: t) e = (if x = e then 1 else 0) + countEv t e := by
  by_cases h : x = e <;> simp [countEv, List.filter_cons, h, Nat.add_comm]

theorem countEv_append (a b : List Ev) (e : Ev) :
    countEv (a ++ b) e = countEv a e + countEv b e := by
  simp [countEv, List.filter_append]

/-- Each attempt block contains exactly one invocation of its stage and none of
any other stage. -/
theorem countEv_attemptBlock_invoke (hooksOn : Bool) (s tag s' : String) :
    countEv (attemptBlock hooksOn s tag) (.invoke s') = if s = s' then 1 else 0 := by
  cases hooksOn <;> by_cases h : s = s' <;>
    simp [attemptBlock, countEv_cons, countEv_nil, countEv_append, h]

theorem countEv_attemptBlocks_invoke (hooksOn : Bool) (s s' : String) (tags : List String) :
    countEv (attemptBlocks hooksOn s tags) (.invoke s') =
      if s = s' then tags.length else 0 := by
  induction tags with
  | nil => simp [attemptBlocks, countEv_nil]
  | cons t ts ih =>
    simp only [attemptBlocks, countEv_append, ih, countEv_attemptBlock_invoke]
    by_cases h : s = s' <;> simp [h, Nat.add_comm]

/-- With hooks attached, each attempt block contains exactly one
`before:stage` emission for its stage (its closing tag is never
`before:stage`). -/
theorem countEv_attemptBlock_before (s tag s' : String)
    (htag : tag = "after:stage" ∨ tag = "error:stage") :
    countEv (attemptBlock true s tag) (.hookEv "before:stage" (some s')) =
      if s = s' then 1 else 0 := by
  rcases htag with h | h <;> by_cases hs : s = s' <;>
    simp [attemptBlock, countEv_cons, countEv_nil, countEv_append, h, hs]

theorem countEv_attemptBlocks_before (s s' : String) (tags : List String)
    (htags : ∀ t ∈ tags, t = "after:stage" ∨ t = "error:stage") :
    countEv (attemptBlocks true s tags) (.hookEv "before:stage" (some s')) =
      if s = s' then tags.length else 0 := by
  induction tags with
  | nil => simp [attemptBlocks, countEv_nil]
  | cons t ts ih =>
    have h1 := countEv_attemptBlock_before s t s' (htags t (List.mem_cons_self t ts))
    have h2 := ih (fun u hu => htags u (List.mem_cons_of_mem t hu))
    simp only [attemptBlocks, countEv_append, h1, h2]
    by_cases h : s = s' <;> simp [h, Nat.add_comm]

/-- No attempt block contains the `after:pipeline` emission (its payload
carries no stage name; the block events all do, or are invocations). -/
theorem countEv_attemptBlocks_ap (hooksOn : Bool) (s : String) (tags : List String) :
    countEv (attemptBlocks hooksOn s tags) (.hookEv "after:pipeline" none) = 0 := by
  induction tags with
  | nil => simp [attemptBlocks, countEv_nil]
  | cons t ts ih =>
    cases hooksOn <;>
      simp [attemptBlocks, attemptBlock, countEv_append, countEv_cons, countEv_nil, ih]

/-- Same for `before:pipeline`. -/
theorem countEv_attemptBlocks_bp (hooksOn : Bool) (s : String) (tags : List String) :
    countEv (attemptBlocks hooksOn s tags) (.hookEv "before:pipeline" none) = 0 := by
  induction tags with
  | nil => simp [attemptBlocks, countEv_nil]
  | cons t ts ih =>
    cases hooksOn <;>
      simp [attemptBlocks, attemptBlock, countEv_append, countEv_cons, countEv_nil, ih]



/-- Well-formed run body: a sequence of attempt chunks, each consisting of a
`before:stage` emission for some stage, the invocation of that stage, and a
closing `after:stage` or `error:stage` emission for it. -/
def chunksOk : List Ev → Bool
  | [] => true
  | Ev.hookEv hb (some s) :: Ev.invoke s' :: Ev.hookEv ha (some s'') :: rest =>
      hb == "before:stage" && s' == s && s'' == s &&
      (ha == "after:stage" || ha == "error:stage") && chunksOk rest
  | _ => false

theorem chunksOk_append {a b : List Ev} (ha : chunksOk a = true) (hb : chunksOk b = true) :
    chunksOk (a ++ b) = true := by
  induction a using chunksOk.induct with
  | case1 => simpa using hb
  | case2 hbname s s' hname s'' rest ih =>
    simp only [chunksOk, Bool.and_eq_true] at ha
    simp only [List.cons_append, chunksOk, Bool.and_eq_true]
    exact ⟨⟨⟨⟨ha.1.1.1.1, ha.1.1.1.2⟩, ha.1.1.2⟩, ha.1.2⟩, ih ha.2⟩
  | case3 l h1 h2 =>
    exfalso
    rw [chunksOk] at ha
    · exact Bool.false_ne_true ha
    · exact h1
    · exact h2

theorem chunksOk_attemptBlocks (s : String) (tags : List String)
    (htags : ∀ t ∈ tags, t = "after:stage" ∨ t = "error:stage") :
    chunksOk (attemptBlocks true s tags) = true := by
  induction tags with
  | nil => simp [attemptBlocks, chunksOk]
  | cons t ts ih =>
    have ht := htags t (List.mem_cons_self t ts)
    have ih' := ih (fun u hu => htags u (List.mem_cons_of_mem t hu))
    simp only [attemptBlocks, attemptBlock, if_true]
    simp only [List.cons_append, List.nil_append, List.singleton_append]
    simp only [chunksOk, Bool.and_eq_true, beq_iff_eq]
    rcases ht with h | h <;> simp [h, ih']

theorem chunksOk_countEv_ap {l : List Ev} (h : chunksOk l = true) :
    countEv l (.hookEv "after:pipeline" none) = 0 := by
  induction l using chunksOk.induct with
  | case1 => simp [countEv_nil]
  | case2 hbname s s' hname s'' rest ih =>
    simp only [chunksOk, Bool.and_eq_true] at h
    simp [countEv_cons, ih h.2]
  | case3 l h1 h2 =>
    exfalso
    rw [chunksOk] at h
    · exact Bool.false_ne_true h
    · exact h1
    · exact h2



theorem stageLoop_chunks (run : Nat → Outcome) (s : String) (rem n : Nat) (acc : Acc) :
    chunksOk (stageLoop true run s n rem acc).trace = true := by
  obtain ⟨tags, htags, htr, _, _⟩ := stageLoop_trace true run s rem n acc
  rw [htr]
  exact chunksOk_attemptBlocks s tags htags

theorem stageLoop_count_before_invoke (run : Nat → Outcome) (s : String) (rem n : Nat)
    (acc : Acc) (s' : String) :
    countEv (stageLoop true run s n rem acc).trace (.hookEv "before:stage" (some s')) =
      countEv (stageLoop true run s n rem acc).trace (.invoke s') := by
  obtain ⟨tags, htags, htr, _, _⟩ := stageLoop_trace true run s rem n acc
  rw [htr, countEv_attemptBlocks_before s s' tags htags, countEv_attemptBlocks_invoke]

theorem stageLoop_count_invoke_le (hooksOn : Bool) (run : Nat → Outcome) (s : String)
    (rem n : Nat) (acc : Acc) :
    countEv (stageLoop hooksOn run s n rem acc).trace (.invoke s) ≤ rem + 1 := by
  obtain ⟨tags, _, htr, _, hlen⟩ := stageLoop_trace hooksOn run s rem n acc
  rw [htr, countEv_attemptBlocks_invoke]
  simpa using hlen

theorem runStages_single_trace (hooksOn : Bool) (st : Stage) (acc : Acc) :
    (runStages hooksOn [st] acc).trace =
      (stageLoop hooksOn st.run (effName st) 1
        (maxAttemptsFor acc.eh (effName st) - 1) acc).trace := by
  simp only [runStages]
  cases h : (stageLoop hooksOn st.run (effName st) 1
      (maxAttemptsFor acc.eh (effName st) - 1) acc).thrown with
  | some e => simp [h]
  | none =>
    by_cases hs : (stageLoop hooksOn st.run (effName st) 1
        (maxAttemptsFor acc.eh (effName st) - 1) acc).acc.res.stop <;> simp [h, hs]

theorem runStages_chunks (stages : List Stage) (acc : Acc) :
    chunksOk (runStages true stages acc).trace = true := by
  induction stages generalizing acc with
  | nil => simp [runStages, chunksOk]
  | cons st rest ih =>
    simp only [runStages]
    cases h : (stageLoop true st.run (effName st) 1
        (maxAttemptsFor acc.eh (effName st) - 1) acc).thrown with
    | some e => simpa [h] using stageLoop_chunks st.run (effName st) _ 1 acc
    | none =>
      by_cases hs : (stageLoop true st.run (effName st) 1
          (maxAttemptsFor acc.eh (effName st) - 1) acc).acc.res.stop
      · simpa [h, hs] using stageLoop_chunks st.run (effName st) _ 1 acc
      · simp only [h, hs]
        simp only [Bool.false_eq_true, if_false]
        exact chunksOk_append (stageLoop_chunks st.run (effName st) _ 1 acc) (ih _)

theorem runStages_count_before_invoke (stages : List Stage) (acc : Acc) (s' : String) :
    countEv (runStages true stages acc).trace (.hookEv "before:stage" (some s')) =
      countEv (runStages true stages acc).trace (.invoke s') := by
  induction stages generalizing acc with
  | nil => simp [runStages, countEv_nil]
  | cons st rest ih =>
    simp only [runStages]
    cases h : (stageLoop true st.run (effName st) 1
        (maxAttemptsFor acc.eh (effName st) - 1) acc).thrown with
    | some e => simpa [h] using stageLoop_count_before_invoke st.run (effName st) _ 1 acc s'
    | none =>
      by_cases hs : (stageLoop true st.run (effName st) 1
          (maxAttemptsFor acc.eh (effName st) - 1) acc).acc.res.stop
      · simpa [h, hs] using stageLoop_count_before_invoke st.run (effName st) _ 1 acc s'
      · simp only [h, hs, Bool.false_eq_true, if_false]
        simp only [countEv_append]
        rw [stageLoop_count_before_invoke st.run (effName st) _ 1 acc s', ih _]



/-- Every registered error-kind handler returns normally (never throws). -/
def TotalFns (eh : ErrorHandler) : Prop :=
  ∀ k f, (k, f) ∈ eh.errorHandlers → ∀ e s n strats, ∃ r, f e s n strats = Except.ok r

/-- `TotalFns` lifted to the engine's optional error handler. -/
def EHOk : Option ErrorHandler → Prop
  | none => True
  | some eh => TotalFns eh

theorem collectAction_eh (acc : Acc) (s : String) (v : Option Obj) :
    (collectAction acc s v).eh = acc.eh := by
  unfold collectAction
  repeat' split
  all_goals rfl

theorem applyStop_eh (acc : Acc) (v : Option Obj) : (applyStop acc v).eh = acc.eh := by
  unfold applyStop
  repeat' split
  all_goals rfl

theorem stopAcc_eh (acc : Acc) (e : JsError) (s : String) : (stopAcc acc e s).eh = acc.eh := rfl

theorem handle_snd_errorHandlers (eh : ErrorHandler) (e : JsError) (s : String) (n : Nat) :
    (eh.handle e s n).2.errorHandlers = eh.errorHandlers := by
  simp only [ErrorHandler.handle, ErrorHandler.updateStats]
  split <;> rfl

theorem handle_fst_ok {eh : ErrorHandler} (h : TotalFns eh) (e : JsError) (s : String)
    (n : Nat) : ∃ r, (eh.handle e s n).1 = Except.ok r := by
  unfold ErrorHandler.handle
  cases hl : assocGet s eh.recoveryStrategies with
  | some strat =>
    refine ⟨ErrorHandler.handleStageError eh.recoveryStrategies e s n, ?_⟩
    simp [ErrorHandler.handle, ErrorHandler.updateStats, hl]
  | none =>
    cases hf : assocGet e.name eh.errorHandlers with
    | none =>
      refine ⟨⟨"stop", "unknown_error", none⟩, ?_⟩
      simp [ErrorHandler.handle, ErrorHandler.updateStats, hl, hf, unknownErrorFn,
        ErrorHandler.handleUnknownError]
    | some f =>
      obtain ⟨r, hr⟩ := h _ _ (assocGet_mem hf) e s n eh.recoveryStrategies
      refine ⟨r, ?_⟩
      simp [ErrorHandler.handle, ErrorHandler.updateStats, hl, hf, hr]

theorem handle_snd_total {eh : ErrorHandler} (h : TotalFns eh) (e : JsError) (s : String)
    (n : Nat) : TotalFns (eh.handle e s n).2 := by
  intro k f hm
  rw [handle_snd_errorHandlers] at hm
  exact h k f hm

theorem stageLoop_thrown_none (hooksOn : Bool) (run : Nat → Outcome) (s : String) :
    ∀ (rem n : Nat) (acc : Acc), EHOk acc.eh →
      (stageLoop hooksOn run s n rem acc).thrown = none ∧
      EHOk (stageLoop hooksOn run s n rem acc).acc.eh := by
  intro rem
  induction rem with
  | zero =>
    intro n acc hok
    rw [stageLoop]
    cases hr : run n with
    | ret v =>
      refine ⟨rfl, ?_⟩
      simpa [applyStop_eh, collectAction_eh] using hok
    | err e =>
      cases he : acc.eh with
      | none => exact ⟨rfl, by simpa [he] using hok⟩
      | some eh =>
        rw [he] at hok
        obtain ⟨r, hr1⟩ := handle_fst_ok (hok) e s n
        have htot : TotalFns (eh.handle e s n).2 := handle_snd_total hok e s n
        by_cases h1 : r.action = "stop"
        · exact ⟨by simp [hr1, h1], by simp [hr1, h1, stopAcc_eh, EHOk, htot]⟩
        · by_cases h2 : r.action = "skip"
          · exact ⟨by simp [hr1, h1, h2], by simp [hr1, h1, h2, EHOk, htot]⟩
          · by_cases h3 : r.action = "retry"
            · exact ⟨by simp [hr1, h1, h2, h3], by simp [hr1, h1, h2, h3, stopAcc_eh, EHOk, htot]⟩
            · exact ⟨by simp [hr1, h1, h2, h3], by simp [hr1, h1, h2, h3, EHOk, htot]⟩
  | succ rem' ih =>
    intro n acc hok
    rw [stageLoop]
    cases hr : run n with
    | ret v =>
      refine ⟨rfl, ?_⟩
      simpa [applyStop_eh, collectAction_eh] using hok
    | err e =>
      cases he : acc.eh with
      | none => exact ⟨rfl, by simpa [he] using hok⟩
      | some eh =>
        rw [he] at hok
        obtain ⟨r, hr1⟩ := handle_fst_ok (hok) e s n
        have htot : TotalFns (eh.handle e s n).2 := handle_snd_total hok e s n
        by_cases h1 : r.action = "stop"
        · exact ⟨by simp [hr1, h1], by simp [hr1, h1, stopAcc_eh, EHOk, htot]⟩
        · by_cases h2 : r.action = "skip"
          · exact ⟨by simp [hr1, h1, h2], by simp [hr1, h1, h2, EHOk, htot]⟩
          · by_cases h3 : r.action = "retry"
            · have hih := ih (n + 1) { acc with eh := some (eh.handle e s n).2 }
                (by simpa [EHOk] using htot)
              exact ⟨by simp [hr1, h1, h2, h3, hih.1], by simpa [hr1, h1, h2, h3] using hih.2⟩
            · exact ⟨by simp [hr1, h1, h2, h3], by simp [hr1, h1, h2, h3, EHOk, htot]⟩

theorem runStages_thrown_none (hooksOn : Bool) (stages : List Stage) (acc : Acc)
    (hok : EHOk acc.eh) :
    (runStages hooksOn stages acc).thrown = none ∧
    EHOk (runStages hooksOn stages acc).acc.eh := by
  induction stages generalizing acc with
  | nil => exact ⟨rfl, hok⟩
  | cons st rest ih =>
    simp only [runStages]
    have hsl := stageLoop_thrown_none hooksOn st.run (effName st)
      (maxAttemptsFor acc.eh (effName st) - 1) 1 acc hok
    cases h : (stageLoop hooksOn st.run (effName st) 1
        (maxAttemptsFor acc.eh (effName st) - 1) acc).thrown with
    | some e => exact absurd h (by simp [hsl.1])
    | none =>
      by_cases hs : (stageLoop hooksOn st.run (effName st) 1
          (maxAttemptsFor acc.eh (effName st) - 1) acc).acc.res.stop
      · simpa [h, hs] using hsl
      · simp only [h, hs, Bool.false_eq_true, if_false]
        exact ih _ hsl.2

/-- C4 (amended): provided every registered error-kind handler returns
normally — which is true of all the built-in handlers — a thrown stage error
never escapes `Pipeline.process`: the run returns normally, the failure
surfacing only through the error and errorStage fields of the result.  (A
registered custom error-kind handler that itself throws does escape, see the
counterexample.) -/
theorem c4_no_escape (p : Pipeline) (hok : EHOk p.errorHandler) :
    p.process.thrown = none := by
  unfold Pipeline.process
  have h := runStages_thrown_none p.hooks.isSome p.stages
    ⟨⟨false, [], [], none, none⟩, [], p.errorHandler⟩ hok
  cases hh : (runStages p.hooks.isSome p.stages
      ⟨⟨false, [], [], none, none⟩, [], p.errorHandler⟩).thrown with
  | some e => exact absurd hh (by simp [h.1])
  | none => simp [hh]



theorem collectAction_res_stop (acc : Acc) (s : String) (v : Option Obj) :
    (collectAction acc s v).res.stop = acc.res.stop := by
  unfold collectAction
  repeat' split
  all_goals rfl

theorem collectAction_res_metadata (acc : Acc) (s : String) (v : Option Obj) :
    (collectAction acc s v).res.metadata = acc.res.metadata := by
  unfold collectAction
  repeat' split
  all_goals rfl

/-- A normally returning invocation ends its slot at once. -/
theorem stageLoop_ret (hooksOn : Bool) (run : Nat → Outcome) (s : String) (n rem : Nat)
    (acc : Acc) (v : Option Obj) (hr : run n = .ret v) :
    stageLoop hooksOn run s n rem acc =
      ⟨none, applyStop (collectAction acc s v) v,
       (if hooksOn then [Ev.hookEv "before:stage" (some s)] else []) ++ Ev.invoke s ::
         (if hooksOn then [Ev.hookEv "after:stage" (some s)] else [])⟩ := by
  rw [stageLoop]
  simp [hr]

/-- C1: if the run reaches stage k (the prefix neither threw nor stopped) and
stage k returns a Stop signal on its invocation, then the run is oblivious to
the stages after k (the whole run output equals that of the pipeline truncated
right after stage k, so stages k+1..N are never invoked), the result carries
`stopped = true`, and every key-value of the stop signal (including `reason`)
is found in the result metadata. -/
theorem c1_stop_halts (hk : Option HookManager) (eh : Option ErrorHandler)
    (pre post : List Stage) (s : Stage) (o : Obj)
    (hret : s.run 1 = .ret (some o))
    (hstop : truthyO (assocGet "stop" o) = true)
    (hpre1 : (runStages hk.isSome pre ⟨⟨false, [], [], none, none⟩, [], eh⟩).thrown = none)
    (hpre2 : (runStages hk.isSome pre
      ⟨⟨false, [], [], none, none⟩, [], eh⟩).acc.res.stop = false) :
    Pipeline.process ⟨pre ++ s :: post, hk, eh⟩ = Pipeline.process ⟨pre ++ [s], hk, eh⟩ ∧
    (Pipeline.process ⟨pre ++ s :: post, hk, eh⟩).acc.res.stop = true ∧
    ∀ k v, assocGet k o = some v →
      assocGet k (Pipeline.process ⟨pre ++ s :: post, hk, eh⟩).acc.res.metadata = some v := by
  have hacc0 : (⟨⟨false, [], [], none, none⟩, [], eh⟩ : Acc).res.stop = false := rfl
  set acc0 : Acc := ⟨⟨false, [], [], none, none⟩, [], eh⟩ with hacc0def
  set pa := (runStages hk.isSome pre acc0).acc with hpadef
  have hslot := stageLoop_ret hk.isSome s.run (effName s) 1
    (maxAttemptsFor pa.eh (effName s) - 1) pa (some o) hret
  have hslotstop : (stageLoop hk.isSome s.run (effName s) 1
      (maxAttemptsFor pa.eh (effName s) - 1) pa).acc.res.stop = true := by
    rw [hslot]
    simp only [applyStop, hstop, if_true]
  have hslotthrown : (stageLoop hk.isSome s.run (effName s) 1
      (maxAttemptsFor pa.eh (effName s) - 1) pa).thrown = none := by
    rw [hslot]
  have htail : runStages hk.isSome (s :: post) pa =
      stageLoop hk.isSome s.run (effName s) 1
        (maxAttemptsFor pa.eh (effName s) - 1) pa := by
    simp only [runStages]
    rw [hslotthrown, hslotstop]
    simp
  have htail2 : runStages hk.isSome [s] pa =
      stageLoop hk.isSome s.run (effName s) 1
        (maxAttemptsFor pa.eh (effName s) - 1) pa := by
    simp only [runStages]
    rw [hslotthrown, hslotstop]
    simp
  have hrunfull : runStages hk.isSome (pre ++ s :: post) acc0 =
      ⟨none,
       (stageLoop hk.isSome s.run (effName s) 1
         (maxAttemptsFor pa.eh (effName s) - 1) pa).acc,
       (runStages hk.isSome pre acc0).trace ++
         (stageLoop hk.isSome s.run (effName s) 1
           (maxAttemptsFor pa.eh (effName s) - 1) pa).trace⟩ := by
    rw [runStages_append hk.isSome pre (s :: post) acc0 hacc0]
    simp only [hpre1, ← hpadef, hpre2, Bool.false_eq_true, if_false]
    rw [htail, hslotthrown]
  have hrun : runStages hk.isSome (pre ++ s :: post) acc0 =
      runStages hk.isSome (pre ++ [s]) acc0 := by
    rw [runStages_append hk.isSome pre (s :: post) acc0 hacc0,
        runStages_append hk.isSome pre [s] acc0 hacc0]
    simp only [hpre1, ← hpadef, hpre2, Bool.false_eq_true, if_false]
    rw [htail, htail2]
  have hproc : Pipeline.process ⟨pre ++ s :: post, hk, eh⟩ =
      Pipeline.process ⟨pre ++ [s], hk, eh⟩ := by
    unfold Pipeline.process
    simp only []
    rw [hrun]
  have hprocacc : (Pipeline.process ⟨pre ++ s :: post, hk, eh⟩).acc =
      (stageLoop hk.isSome s.run (effName s) 1
        (maxAttemptsFor pa.eh (effName s) - 1) pa).acc := by
    unfold Pipeline.process
    simp only []
    rw [hrunfull]
  refine ⟨hproc, ?_, ?_⟩
  · rw [hprocacc]
    exact hslotstop
  · intro k v hkv
    rw [hprocacc, hslot]
    simp only [applyStop, hstop, if_true]
    simp only [collectAction_res_metadata]
    exact assocGet_append_right hkv _



theorem countEv_hookList (b : Bool) (x : String) (y : Option String) (e : Ev)
    (h : Ev.hookEv x y ≠ e) :
    countEv (if b then [Ev.hookEv x y] else []) e = 0 := by
  cases b <;> simp [countEv_cons, countEv_nil, h]

/-- The initial run state of `process`. -/
def initAcc (eh : Option ErrorHandler) : Acc := ⟨⟨false, [], [], none, none⟩, [], eh⟩

theorem process_count_invoke (p : Pipeline) (s : String) :
    countEv p.process.trace (.invoke s) =
      countEv (runStages p.hooks.isSome p.stages (initAcc p.errorHandler)).trace
        (.invoke s) := by
  unfold Pipeline.process
  cases hh : (runStages p.hooks.isSome p.stages
      ⟨⟨false, [], [], none, none⟩, [], p.errorHandler⟩).thrown with
  | some e =>
    simp only [hh, countEv_append, initAcc]
    rw [countEv_hookList _ _ _ _ (by simp)]
    simp
  | none =>
    simp only [hh, countEv_append, initAcc]
    rw [countEv_hookList _ _ _ _ (by simp), countEv_hookList _ _ _ _ (by simp)]
    simp

theorem process_count_before (p : Pipeline) (s : String) :
    countEv p.process.trace (.hookEv "before:stage" (some s)) =
      countEv (runStages p.hooks.isSome p.stages (initAcc p.errorHandler)).trace
        (.hookEv "before:stage" (some s)) := by
  unfold Pipeline.process
  cases hh : (runStages p.hooks.isSome p.stages
      ⟨⟨false, [], [], none, none⟩, [], p.errorHandler⟩).thrown with
  | some e =>
    simp only [hh, countEv_append, initAcc]
    rw [countEv_hookList _ _ _ _ (by simp)]
    simp
  | none =>
    simp only [hh, countEv_append, initAcc]
    rw [countEv_hookList _ _ _ _ (by simp), countEv_hookList _ _ _ _ (by simp)]
    simp

/-- `process.thrown` is the exception of the stage loop. -/
theorem process_thrown_eq (p : Pipeline) :
    p.process.thrown =
      (runStages p.hooks.isSome p.stages (initAcc p.errorHandler)).thrown := by
  unfold Pipeline.process
  cases hh : (runStages p.hooks.isSome p.stages
      ⟨⟨false, [], [], none, none⟩, [], p.errorHandler⟩).thrown <;>
    simp [initAcc, hh]

/-- Trace shape of a normally returning run. -/
theorem process_trace_of_thrown_none (p : Pipeline)
    (h : (runStages p.hooks.isSome p.stages (initAcc p.errorHandler)).thrown = none) :
    p.process.trace =
      (if p.hooks.isSome then [Ev.hookEv "before:pipeline" none] else []) ++
      (runStages p.hooks.isSome p.stages (initAcc p.errorHandler)).trace ++
      (if p.hooks.isSome then [Ev.hookEv "after:pipeline" none] else []) := by
  unfold Pipeline.process
  simp only [initAcc] at h
  simp [h, initAcc]

theorem c2_general_aux (st : Stage) (hk : Option HookManager) (eh : ErrorHandler)
    (strat : RecoveryStrategy) (m : Nat)
    (hlk : assocGet (effName st) eh.recoveryStrategies = some strat)
    (hm : strat.maxRetries = some m) (h1 : 1 ≤ m) :
    countEv (Pipeline.process ⟨[st], hk, some eh⟩).trace (.invoke (effName st)) ≤ m := by
  have hmax : maxAttemptsFor (initAcc (some eh)).eh (effName st) = m := by
    simp [maxAttemptsFor, initAcc, hlk, hm]
  rw [process_count_invoke, runStages_single_trace, hmax]
  exact le_trans
    (stageLoop_count_invoke_le _ st.run (effName st) (m - 1) 1 (initAcc (some eh)))
    (by omega)

theorem c9_general_aux (stages : List Stage) (hm : HookManager)
    (eh : Option ErrorHandler) (s : String) :
    countEv (Pipeline.process ⟨stages, some hm, eh⟩).trace
        (.hookEv "before:stage" (some s)) =
      countEv (Pipeline.process ⟨stages, some hm, eh⟩).trace (.invoke s) := by
  rw [process_count_invoke, process_count_before]
  exact runStages_count_before_invoke stages (initAcc eh) s

/-- C3 (amended): with a hook manager attached, a run that returns normally
emits `before:pipeline` first and `after:pipeline` exactly once at the very
end (even when it stopped early); in between, each stage attempt emits
`before:stage`, then the invocation happens, then exactly one of `after:stage`
(normal return) or `error:stage` (throw) — `after:stage` is not emitted for a
throwing attempt. -/
theorem c3_hook_order (stages : List Stage) (hm : HookManager) (eh : Option ErrorHandler)
    (hok : (Pipeline.process ⟨stages, some hm, eh⟩).thrown = none) :
    (∃ body,
      (Pipeline.process ⟨stages, some hm, eh⟩).trace =
        Ev.hookEv "before:pipeline" none :: (body ++ [Ev.hookEv "after:pipeline" none]) ∧
      chunksOk body = true) ∧
    countEv (Pipeline.process ⟨stages, some hm, eh⟩).trace
      (.hookEv "after:pipeline" none) = 1 := by
  rw [process_thrown_eq] at hok
  have hsh := process_trace_of_thrown_none ⟨stages, some hm, eh⟩ hok
  simp only [Option.isSome_some, if_true] at hsh
  have hbody : chunksOk (runStages true stages (initAcc eh)).trace = true := by
    simpa using runStages_chunks stages (initAcc eh)
  have h0 : countEv (runStages true stages (initAcc eh)).trace
      (.hookEv "after:pipeline" none) = 0 := chunksOk_countEv_ap hbody
  constructor
  · refine ⟨(runStages true stages (initAcc eh)).trace, ?_, hbody⟩
    rw [hsh]
    simp
  · rw [hsh]
    simp [countEv_append, countEv_cons, countEv_nil, h0]



/-- C5: a recovery strategy registered for the stage name governs any error
thrown by that stage — `handle` then resolves through `handleStageError`,
whose result does not consult the error kind; only with no registered
strategy does `handle` dispatch on the error kind, falling back to the
unknown-kind handler. -/
theorem c5_strategy_priority (eh : ErrorHandler) (e : JsError) (s : String) (n : Nat) :
    (∀ strat, assocGet s eh.recoveryStrategies = some strat →
      (eh.handle e s n).1 =
        .ok (ErrorHandler.handleStageError eh.recoveryStrategies e s n)) ∧
    (assocGet s eh.recoveryStrategies = none →
      (eh.handle e s n).1 =
        ((assocGet e.name eh.errorHandlers).getD unknownErrorFn) e s n
          eh.recoveryStrategies) := by
  constructor
  · intro strat hst
    simp [ErrorHandler.handle, ErrorHandler.updateStats, hst]
  · intro hst
    simp [ErrorHandler.handle, ErrorHandler.updateStats, hst]

/-- C6: with the default handler registry and no strategy registered for the
stage, a `DatabaseError` resolves by its `code` — `ECONNREFUSED` to
stop/db_connection_failed, `QUERY_CANCELLED` to skip/db_timeout, any other
code to skip/db_error — and an error of a kind absent from the registry
resolves to stop/unknown_error. -/
theorem c6_kind_dispatch (rs : List (String × RecoveryStrategy)) (stats : ErrorStats)
    (s : String) (n : Nat) (hs : assocGet s rs = none) :
    ((ErrorHandler.mk defaultErrorHandlers rs stats).handle
        ⟨"DatabaseError", some "ECONNREFUSED"⟩ s n).1 =
      .ok ⟨"stop", "db_connection_failed", none⟩ ∧
    ((ErrorHandler.mk defaultErrorHandlers rs stats).handle
        ⟨"DatabaseError", some "QUERY_CANCELLED"⟩ s n).1 =
      .ok ⟨"skip", "db_timeout", none⟩ ∧
    (∀ c, c ≠ some "ECONNREFUSED" → c ≠ some "QUERY_CANCELLED" →
      ((ErrorHandler.mk defaultErrorHandlers rs stats).handle ⟨"DatabaseError", c⟩ s n).1 =
        .ok ⟨"skip", "db_error", none⟩) ∧
    (∀ k c, assocGet k defaultErrorHandlers = none →
      ((ErrorHandler.mk defaultErrorHandlers rs stats).handle ⟨k, c⟩ s n).1 =
        .ok ⟨"stop", "unknown_error", none⟩) := by
  have hdb : assocGet "DatabaseError" defaultErrorHandlers = some databaseErrorFn := rfl
  refine ⟨?_, ?_, ?_, ?_⟩
  · simp [ErrorHandler.handle, ErrorHandler.updateStats, hs, hdb, databaseErrorFn,
      ErrorHandler.handleDatabaseError]
  · simp [ErrorHandler.handle, ErrorHandler.updateStats, hs, hdb, databaseErrorFn,
      ErrorHandler.handleDatabaseError]
  · intro c h1 h2
    simp [ErrorHandler.handle, ErrorHandler.updateStats, hs, hdb, databaseErrorFn,
      ErrorHandler.handleDatabaseError, h1, h2]
  · intro k c hk
    simp [ErrorHandler.handle, ErrorHandler.updateStats, hs, hk, unknownErrorFn,
      ErrorHandler.handleUnknownError]

theorem emit_ids (hm : HookManager) (name : String) :
    (hm.emit name).map Prod.fst =
      ((assocGet name hm.hooks).getD []).map HookListener.id := by
  unfold HookManager.emit
  rw [List.map_map]
  refine List.map_congr_left ?_
  intro cb _
  cases h : cb.run <;> simp [Function.comp, h]

/-- C8: `ActionHandler.handle` returns false with nothing invoked when the
action name is null/absent or has no registered handler; it returns true
(and bumps the statistics) when the registered handler completes; and it
re-throws (with the failure counter bumped) when the handler throws. -/
theorem c8_handle (ah : ActionHandler) (data : Val) :
    (∀ a, a = none ∨ a = some "" → ah.handle a data = (.ok false, ah, [])) ∧
    (∀ s, assocGet s ah.handlers = none → ah.handle (some s) data = (.ok false, ah, [])) ∧
    (∀ s f, s ≠ "" → assocGet s ah.handlers = some f → f data = .ok () →
      ah.handle (some s) data =
        (.ok true,
         ⟨ah.handlers, ⟨ah.stats.total + 1, bump ah.stats.byAction s, ah.stats.failed⟩⟩,
         [s])) ∧
    (∀ s f e, s ≠ "" → assocGet s ah.handlers = some f → f data = .error e →
      ah.handle (some s) data =
        (.error e,
         ⟨ah.handlers, ⟨ah.stats.total, ah.stats.byAction, ah.stats.failed + 1⟩⟩,
         [s])) := by
  refine ⟨?_, ?_, ?_, ?_⟩
  · rintro a (rfl | rfl) <;> simp [ActionHandler.handle, falsyStr]
  · intro s hs
    by_cases h : s = ""
    · simp [ActionHandler.handle, falsyStr, h]
    · simp [ActionHandler.handle, falsyStr, h, hs]
  · intro s f hne hf hok
    simp [ActionHandler.handle, falsyStr, hne, hf, hok]
  · intro s f e hne hf herr
    simp [ActionHandler.handle, falsyStr, hne, hf, herr]

/-! ### Concrete fixtures -/

/-- A generic thrown error. -/
def errE : JsError := ⟨"Error", none⟩

/-- An error handler with a retry strategy (3 attempts, zero base backoff)
registered for the stage named `flakey`. -/
def flakeyEH : ErrorHandler :=
  mkErrorHandler.registerRecoveryStrategy "flakey" ⟨"retry", some 3, some 0⟩

/-- A stage named `flakey` that throws on every invocation. -/
def flakeyStage : Stage := ⟨"flakey", fun _ => .err errE⟩

/-- The retry scenario pipeline. -/
def flakeyP : Pipeline := ⟨[flakeyStage], none, some flakeyEH⟩

/-- A hook manager with no listeners (hook emission is still observable). -/
def hmEmpty : HookManager := ⟨[]⟩

/-- The retry scenario with hooks attached. -/
def flakeyHooksP : Pipeline := ⟨[flakeyStage], some hmEmpty, some flakeyEH⟩

/-- The stop signal of the spec example. -/
def stopObj : Obj := [("stop", .bool true), ("reason", .str "blocked")]

/-- A stage returning the stop signal. -/
def stopStage : Stage := ⟨"stopper", fun _ => .ret (some stopObj)⟩

/-- A stage that just continues. -/
def aStage : Stage := ⟨"a", fun _ => .ret none⟩

/-- A stage placed after a stopping stage. -/
def neverStage : Stage := ⟨"never", fun _ => .ret none⟩

/-- A throwing stage in a pipeline with hooks but no error handler. -/
def boomStage : Stage := ⟨"boom", fun _ => .err errE⟩

/-- Pipeline for the hook-order counterexample. -/
def boomP : Pipeline := ⟨[boomStage], some hmEmpty, none⟩

/-- A custom error-kind handler that rethrows the error it is given. -/
def rethrowFn : ErrorHandlerFn := fun e _ _ _ => .error e

/-- An error handler with the rethrowing custom kind handler registered. -/
def escapeEH : ErrorHandler := mkErrorHandler.registerErrorHandler "BoomError" rethrowFn

/-- A stage throwing the custom kind. -/
def crashStage : Stage := ⟨"s", fun _ => .err ⟨"BoomError", none⟩⟩

/-- Pipeline on which the stage error escapes `process`. -/
def escapeP : Pipeline := ⟨[crashStage], none, some escapeEH⟩

/-- Three listeners A, B, C on hook `ev`, registered in that order; B throws. -/
def hm3 : HookManager :=
  (((⟨[]⟩ : HookManager).on "ev" ⟨"A", .ok ()⟩).on "ev"
    ⟨"B", .error errE⟩).on "ev" ⟨"C", .ok ()⟩

/-- An error handler with a skip strategy registered for stage `s1`. -/
def ehC5 : ErrorHandler := mkErrorHandler.registerRecoveryStrategy "s1" ⟨"skip", none, none⟩

/-- A database connection error, whose kind dispatch would say stop. -/
def dbErr : JsError := ⟨"DatabaseError", some "ECONNREFUSED"⟩

/-- An action handler that completes. -/
def ahOkFn : ActionFn := fun _ => .ok ()

/-- The error thrown by the failing action handler. -/
def errB8 : JsError := ⟨"Error", some "boom"⟩

/-- An action handler that throws. -/
def ahBoomFn : ActionFn := fun _ => .error errB8

/-- An `ActionHandler` with handlers for `ok` and `boom`. -/
def ahC8 : ActionHandler := (mkActionHandler.register "ok" ahOkFn).register "boom" ahBoomFn

/-- The error thrown by the unnamed stages. -/
def oopsErr : JsError := ⟨"Oops", none⟩

/-- An unnamed (empty-name) stage that throws. -/
def anonStageA : Stage := ⟨"", fun _ => .err oopsErr⟩

/-- A second unnamed stage that throws. -/
def anonStageB : Stage := ⟨"", fun _ => .err oopsErr⟩

/-- An error handler with a skip strategy registered under `anonymous`. -/
def ehAnon : ErrorHandler :=
  mkErrorHandler.registerRecoveryStrategy "anonymous" ⟨"skip", none, none⟩

/-- Pipeline of two unnamed throwing stages. -/
def anonP : Pipeline := ⟨[anonStageA, anonStageB], some hmEmpty, some ehAnon⟩

/-- A throwing stage processed by the default error handler. -/
def c4wStage : Stage := ⟨"w", fun _ => .err errE⟩

/-- The freshly constructed error handler has only the built-in (non-throwing)
kind handlers. -/
theorem totalFns_mkErrorHandler : TotalFns mkErrorHandler := by
  intro k f hmem e s n strats
  simp only [mkErrorHandler, defaultErrorHandlers, List.mem_cons,
    List.not_mem_nil, or_false, Prod.mk.injEq] at hmem
  rcases hmem with ⟨-, rfl⟩ | ⟨-, rfl⟩ | ⟨-, rfl⟩
  · exact ⟨_, rfl⟩
  · exact ⟨_, rfl⟩
  · exact ⟨_, rfl⟩

/-! ### The claims -/

/-- C1 witness: a three-stage pipeline whose middle stage returns
`{stop: true, reason: blocked}` behaves exactly like the pipeline without the
last stage, stops, and carries the reason in its metadata. -/
theorem c1_stop_halts_witness :
    Pipeline.process ⟨[aStage] ++ stopStage :: [neverStage], none, none⟩ =
      Pipeline.process ⟨[aStage] ++ [stopStage], none, none⟩ ∧
    (Pipeline.process ⟨[aStage] ++ stopStage :: [neverStage],
      none, none⟩).acc.res.stop = true ∧
    assocGet "reason" (Pipeline.process ⟨[aStage] ++ stopStage :: [neverStage],
      none, none⟩).acc.res.metadata = some (.str "blocked") := by
  have h := c1_stop_halts none none [aStage] [neverStage] stopStage stopObj rfl
    (by decide) (by decide) (by decide)
  exact ⟨h.1, h.2.1, h.2.2 "reason" (.str "blocked") (by decide)⟩

/-- C2: the always-throwing stage `flakey` under the retry strategy
(maxAttempts 3) is invoked exactly 3 times, after which the run is stopped
with the error and the stage name recorded; in general, a single-stage
pipeline whose stage has a registered strategy with a positive retry budget
`m` invokes the stage at most `m` times in total. -/
theorem c2_retry_bound :
    (countEv flakeyP.process.trace (.invoke "flakey") = 3 ∧
     flakeyP.process.acc.res.stop = true ∧
     flakeyP.process.acc.res.errorStage = some "flakey" ∧
     flakeyP.process.acc.res.error = some errE) ∧
    (∀ (st : Stage) (hk : Option HookManager) (eh : ErrorHandler)
       (strat : RecoveryStrategy) (m : Nat),
      assocGet (effName st) eh.recoveryStrategies = some strat →
      strat.strategy = "retry" → strat.maxRetries = some m → 1 ≤ m →
      countEv (Pipeline.process ⟨[st], hk, some eh⟩).trace
        (.invoke (effName st)) ≤ m) := by
  refine ⟨⟨by decide, by decide, by decide, by decide⟩, ?_⟩
  intro st hk eh strat m hlk _ hm h1
  exact c2_general_aux st hk eh strat m hlk hm h1

/-- C2 witness: the general retry bound applied to the `flakey` scenario. -/
theorem c2_retry_bound_witness :
    assocGet (effName flakeyStage) flakeyEH.recoveryStrategies =
      some ⟨"retry", some 3, some 0⟩ ∧
    countEv (Pipeline.process ⟨[flakeyStage], none, some flakeyEH⟩).trace
      (.invoke (effName flakeyStage)) ≤ 3 :=
  ⟨by decide, c2_retry_bound.2 flakeyStage none flakeyEH ⟨"retry", some 3, some 0⟩ 3
    (by decide) rfl rfl (by decide)⟩

/-- C3 counterexample: a throwing stage is executed (invoked once) but no
`after:stage` hook is ever emitted for it — the attempt emits `error:stage`
instead — refuting the claimed per-stage order
`before:stage`, optional `error:stage`, then `after:stage`. -/
theorem c3_counterexample :
    boomP.process.trace =
      [Ev.hookEv "before:pipeline" none, Ev.hookEv "before:stage" (some "boom"),
       Ev.invoke "boom", Ev.hookEv "error:stage" (some "boom"),
       Ev.hookEv "after:pipeline" none] ∧
    countEv boomP.process.trace (.invoke "boom") = 1 ∧
    countEv boomP.process.trace (.hookEv "after:stage" (some "boom")) = 0 :=
  ⟨by decide, by decide, by decide⟩

/-- C3 witness: a run with hooks attached emits `after:pipeline` exactly once. -/
theorem c3_hook_order_witness :
    countEv (Pipeline.process ⟨[aStage], some hmEmpty, none⟩).trace
      (.hookEv "after:pipeline" none) = 1 :=
  (c3_hook_order [aStage] hmEmpty none (by decide)).2

/-- C4 counterexample: with a custom error-kind handler that rethrows, the
thrown stage error escapes `Pipeline.process` (the run aborts carrying the
exception instead of returning normally). -/
theorem c4_counterexample :
    escapeP.process.thrown = some ⟨"BoomError", none⟩ := by decide

/-- C4 witness: with only the built-in handlers, a throwing stage does not
make `process` throw. -/
theorem c4_no_escape_witness :
    (Pipeline.process ⟨[c4wStage], none, some mkErrorHandler⟩).thrown = none :=
  c4_no_escape ⟨[c4wStage], none, some mkErrorHandler⟩ totalFns_mkErrorHandler

/-- C5 witness: with a skip strategy registered for `s1`, even a
`DatabaseError` with code `ECONNREFUSED` (whose kind dispatch would stop the
run) resolves through the strategy, to skip/stage_error. -/
theorem c5_strategy_priority_witness :
    (ehC5.handle dbErr "s1" 1).1 =
      .ok (ErrorHandler.handleStageError ehC5.recoveryStrategies dbErr "s1" 1) ∧
    ErrorHandler.handleStageError ehC5.recoveryStrategies dbErr "s1" 1 =
      ⟨"skip", "stage_error", none⟩ :=
  ⟨(c5_strategy_priority ehC5 dbErr "s1" 1).1 ⟨"skip", none, none⟩ (by decide), by decide⟩

/-- C6 witness: the four dispatch outcomes at concrete errors. -/
theorem c6_kind_dispatch_witness :
    ((ErrorHandler.mk defaultErrorHandlers [] ⟨0, [], []⟩).handle
        ⟨"DatabaseError", some "ECONNREFUSED"⟩ "x" 1).1 =
      .ok ⟨"stop", "db_connection_failed", none⟩ ∧
    ((ErrorHandler.mk defaultErrorHandlers [] ⟨0, [], []⟩).handle
        ⟨"DatabaseError", some "QUERY_CANCELLED"⟩ "x" 1).1 =
      .ok ⟨"skip", "db_timeout", none⟩ ∧
    ((ErrorHandler.mk defaultErrorHandlers [] ⟨0, [], []⟩).handle
        ⟨"DatabaseError", some "WEIRD_CODE"⟩ "x" 1).1 =
      .ok ⟨"skip", "db_error", none⟩ ∧
    ((ErrorHandler.mk defaultErrorHandlers [] ⟨0, [], []⟩).handle
        ⟨"TypeError", none⟩ "x" 1).1 =
      .ok ⟨"stop", "unknown_error", none⟩ := by
  have h := c6_kind_dispatch [] ⟨0, [], []⟩ "x" 1 rfl
  exact ⟨h.1, h.2.1, h.2.2.1 (some "WEIRD_CODE") (by decide) (by decide),
    h.2.2.2 "TypeError" none rfl⟩

/-- C7: `emit` invokes every listener registered for the hook name, in
registration order, whether or not any of them throws (the invocation record
pairs each listener identity with its caught error, and the return type of
`emit` has no error channel, so nothing propagates to the caller); concretely,
listeners A, B, C on `ev` with B throwing are all invoked in order A, B, C and
the exception of B is swallowed. -/
theorem c7_emit_order :
    (∀ (hm : HookManager) (name : String),
      (hm.emit name).map Prod.fst =
        ((assocGet name hm.hooks).getD []).map HookListener.id) ∧
    hm3.emit "ev" = [("A", none), ("B", some errE), ("C", none)] :=
  ⟨emit_ids, by decide⟩

/-- C8 witness: the four behaviours of `handle` at a concrete handler
registry. -/
theorem c8_handle_witness :
    ahC8.handle none .null = (.ok false, ahC8, []) ∧
    ahC8.handle (some "missing") .null = (.ok false, ahC8, []) ∧
    ahC8.handle (some "ok") .null =
      (.ok true,
       ⟨ahC8.handlers, ⟨ahC8.stats.total + 1, bump ahC8.stats.byAction "ok",
        ahC8.stats.failed⟩⟩, ["ok"]) ∧
    ahC8.handle (some "boom") .null =
      (.error errB8,
       ⟨ahC8.handlers, ⟨ahC8.stats.total, ahC8.stats.byAction,
        ahC8.stats.failed + 1⟩⟩, ["boom"]) := by
  have h := c8_handle ahC8 .null
  exact ⟨h.1 none (Or.inl rfl), h.2.1 "missing" rfl,
    h.2.2.1 "ok" ahOkFn (by decide) rfl rfl,
    h.2.2.2 "boom" ahBoomFn errB8 (by decide) rfl rfl⟩

/-- C9: with hooks attached, `before:stage` is emitted once per invocation
attempt of a stage (it sits inside the retry loop), so in every run the
number of `before:stage` emissions carrying a stage name equals the number of
invocations of that stage; the thrice-retried `flakey` stage yields three
`before:stage` emissions, not one. -/
theorem c9_before_per_attempt :
    (∀ (stages : List Stage) (hm : HookManager) (eh : Option ErrorHandler) (s : String),
      countEv (Pipeline.process ⟨stages, some hm, eh⟩).trace
          (.hookEv "before:stage" (some s)) =
        countEv (Pipeline.process ⟨stages, some hm, eh⟩).trace (.invoke s)) ∧
    (countEv flakeyHooksP.process.trace (.hookEv "before:stage" (some "flakey")) = 3 ∧
     countEv flakeyHooksP.process.trace (.invoke "flakey") = 3) :=
  ⟨c9_general_aux, by decide, by decide⟩

/-- C10: a stage with an empty name is processed exactly as if it were named
`anonymous` (the run cannot distinguish the two); concretely, two unnamed
throwing stages both resolve the recovery strategy registered under
`anonymous` (so the run is not stopped), emit their hooks with stage name
`anonymous`, share the single statistics key `anonymous` (count 2), and
`inspect` lists both as `anonymous`. -/
theorem c10_anonymous :
    (∀ (run : Nat → Outcome) (hooksOn : Bool) (acc : Acc),
      runStages hooksOn [⟨"", run⟩] acc = runStages hooksOn [⟨"anonymous", run⟩] acc) ∧
    anonP.process.acc.res.stop = false ∧
    countEv anonP.process.trace (.hookEv "before:stage" (some "anonymous")) = 2 ∧
    (anonP.process.acc.eh.map fun eh => assocGet "anonymous" eh.errorStats.byStage) =
      some (some 2) ∧
    anonP.inspect = ⟨2, ["anonymous", "anonymous"], true, some [], true, some ⟨0, [], []⟩⟩ :=
  ⟨fun _ _ _ => rfl, by decide, by decide, by decide, by decide⟩

end TAF
